import Mathlib

/-!
Verification of the LearnPolish static-asset layer.

This file is a shallow embedding of the repository's asset-URL resolution
code (`docs/static/js/audio-paths.js` and the unified `audio-paths.js`
variant), and of the practice service worker (`docs/practice/11-11-01/sw.js`).

Strings are modelled as Lean `String` (lists of Unicode scalar values).
The platform's `String.prototype.normalize("NFD")` is an external builtin;
functions that call it take an explicit `nfd : String → String` parameter.
A concrete decomposition table for the Polish alphabet (`nfdPL`) is provided
for evaluating concrete scenarios; on inputs drawn from this repository's
data it agrees with the platform's NFD.

Network and cache-storage effects of the service worker and manifest loader
are modelled as explicit oracle functions (`net`, `fetchO`, `putErr`,
`openErr`), so every handler is a pure, total function from its inputs and
oracles to its outbound messages and final cache state.
-/

/- ===== Section 1: characters and the slugifier ===== -/

/-- Model of ASCII lower-casing, the fragment of `String.prototype.toLowerCase`
relevant after NFD decomposition: code points 65..90 shift by 32, all other
code points are kept. -/
def jsToLower (c : Char) : Char :=
  if 65 ≤ c.toNat ∧ c.toNat ≤ 90 then Char.ofNat (c.toNat + 32) else c

/-- Character class `[a-z0-9]` of the slug regexes. -/
def isLowerAlnum (c : Char) : Bool :=
  decide ((97 ≤ c.toNat ∧ c.toNat ≤ 122) ∨ (48 ≤ c.toNat ∧ c.toNat ≤ 57))

/-- Character class `[a-z0-9_]` of canonical slugs. -/
def okChar (c : Char) : Bool := isLowerAlnum c || c == '_'

/-- Combining diacritical marks `[̀-ͯ]` stripped after NFD. -/
def isMark (c : Char) : Bool := decide (768 ≤ c.toNat ∧ c.toNat ≤ 879)

/-- `.replace(/[̀-ͯ]/g, "")`: drop combining marks. -/
def stripMarks (l : List Char) : List Char := l.filter (fun c => !(isMark c))

/-- Engine of `.replace(/X+/g, "_")`: each maximal run of characters
satisfying `p` is replaced by a single underscore. `inRun` records whether
the previous character was part of a run already replaced. -/
def collapseRunsAux (p : Char → Bool) : Bool → List Char → List Char
  | _, [] => []
  | inRun, c :: rest =>
    if p c then
      if inRun then collapseRunsAux p true rest
      else '_' :: collapseRunsAux p true rest
    else c :: collapseRunsAux p false rest

/-- `.replace(/X+/g, "_")` where `X` is the class decided by `p`. -/
def collapseRuns (p : Char → Bool) (l : List Char) : List Char :=
  collapseRunsAux p false l

/-- Removes the maximal underscore suffix, the `_+$` half of
`.replace(/^_+|_+$/g, "")`. -/
def dropTrailingUnderscores : List Char → List Char
  | [] => []
  | c :: rest =>
    match dropTrailingUnderscores rest with
    | [] => if c == '_' then [] else [c]
    | r => c :: r

/-- `.replace(/^_+|_+$/g, "")`: trim leading and trailing underscores. -/
def trimUnderscores (l : List Char) : List Char :=
  dropTrailingUnderscores (l.dropWhile (fun c => c == '_'))

/-- The character pipeline of `slugifyForFile` after NFD normalization:
strip combining marks, lower-case, `[^a-z0-9]+` → `_`, `_+` → `_`,
trim edge underscores (source: `docs/static/js/audio-paths.js`, lines 15-29). -/
def slugChars (l : List Char) : List Char :=
  trimUnderscores
    (collapseRuns (fun c => c == '_')
      (collapseRuns (fun c => !(isLowerAlnum c))
        ((stripMarks l).map jsToLower)))

/-- `slugifyForFile` from `docs/static/js/audio-paths.js`: the guard
`if (!s) return ""` followed by the character pipeline applied to the NFD
normalization of the input. -/
def slugifyForFile (nfd : String → String) (s : String) : String :=
  if s = "" then "" else String.mk (slugChars (nfd s).data)

/-- Character class `[a-zA-Z0-9_-]` kept by the unified variant's `sanitize`. -/
def sanitizeKeep (c : Char) : Bool :=
  decide ((65 ≤ c.toNat ∧ c.toNat ≤ 90) ∨ (97 ≤ c.toNat ∧ c.toNat ≤ 122) ∨
    (48 ≤ c.toNat ∧ c.toNat ≤ 57)) || c == '_' || c == '-'

/-- `sanitize` from the unified `audio-paths.js` (src/unnamed/part_002,
lines 15-20): NFD, strip marks, `[^a-zA-Z0-9_-]+` → `_`, trim edge
underscores. Unlike `slugifyForFile` it does not lower-case and keeps
hyphens and existing underscore runs. -/
def sanitize (nfd : String → String) (t : String) : String :=
  String.mk
    (trimUnderscores
      (collapseRuns (fun c => !(sanitizeKeep c)) (stripMarks (nfd t).data)))

/-- No two consecutive underscores. -/
def noDouble : List Char → Bool
  | [] => true
  | [_] => true
  | a :: b :: rest => !(a == '_' && b == '_') && noDouble (b :: rest)

/-- The first character, if any, is not an underscore. -/
def noLead : List Char → Bool
  | [] => true
  | c :: _ => !(c == '_')

/-- The last character, if any, is not an underscore. -/
def noTrail : List Char → Bool
  | [] => true
  | [c] => !(c == '_')
  | _ :: b :: rest => noTrail (b :: rest)

/-- A canonical slug: matches `/^[a-z0-9_]*$/` with no doubled, leading or
trailing underscore. -/
def isCanon (l : List Char) : Bool :=
  l.all okChar && noDouble l && noLead l && noTrail l

/-- Unicode NFD canonical decomposition restricted to the Polish alphabet
(the accented Latin letters occurring in this repository's data); identity
on every other character. `ł`/`Ł` have no canonical decomposition. -/
def nfdCharPL (c : Char) : List Char :=
  match c with
  | 'ą' => ['a', '̨'] | 'Ą' => ['A', '̨']
  | 'ć' => ['c', '́'] | 'Ć' => ['C', '́']
  | 'ę' => ['e', '̨'] | 'Ę' => ['E', '̨']
  | 'ń' => ['n', '́'] | 'Ń' => ['N', '́']
  | 'ó' => ['o', '́'] | 'Ó' => ['O', '́']
  | 'ś' => ['s', '́'] | 'Ś' => ['S', '́']
  | 'ź' => ['z', '́'] | 'Ź' => ['Z', '́']
  | 'ż' => ['z', '̇'] | 'Ż' => ['Z', '̇']
  | _ => [c]

/-- NFD normalization over strings of Polish text (see `nfdCharPL`). -/
def nfdPL (s : String) : String :=
  String.mk (List.flatten (s.data.map nfdCharPL))

/- ===== Section 2: URL helpers and the unified resolver (part_002) ===== -/

/-- JavaScript `a || b` on strings: the empty string is falsy. -/
def jsOr (a b : String) : String := if a = "" then b else a

/-- `isAbs` from the unified `audio-paths.js` (line 21):
`/^(https?:)?\/\//i.test(u)` guarded by `!!u` — an http, https, or
protocol-relative URL prefix, case-insensitively. -/
def isAbs (u : String) : Bool :=
  !(u == "") &&
    (let l := u.data.map jsToLower
     "//".data.isPrefixOf l || "http://".data.isPrefixOf l ||
       "https://".data.isPrefixOf l)

/-- `String(x).replace(/^\/+/, "")`: drop leading slashes. -/
def stripLeadingSlashes (s : String) : String :=
  String.mk (s.data.dropWhile (fun c => c == '/'))

/-- `rel.split("/").pop()`: the segment after the last slash. -/
def lastSeg (l : List Char) : List Char :=
  (l.reverse.takeWhile (fun c => !(c == '/'))).reverse

/-- The `file` computed by `resolveSetAsset` (line 44): strip leading
slashes, then the last path segment if the result contains a slash. -/
def canonFile (relOrFile : String) : String :=
  let rel := stripLeadingSlashes relOrFile
  if rel.data.contains '/' then String.mk (lastSeg rel.data) else rel

/-- `String(base).replace(/\/$/, "")`: drop one trailing slash. -/
def stripTrailingSlash (s : String) : String :=
  match s.data.getLast? with
  | some '/' => String.mk s.data.dropLast
  | _ => s

/-- Upper-case hexadecimal digit, as produced by `encodeURIComponent`. -/
def hexDigitUpper (n : Nat) : Char :=
  if n < 10 then Char.ofNat (48 + n) else Char.ofNat (55 + n)

/-- UTF-8 bytes of a Unicode scalar value. -/
def utf8Bytes (n : Nat) : List Nat :=
  if n < 128 then [n]
  else if n < 2048 then [192 + n / 64, 128 + n % 64]
  else if n < 65536 then [224 + n / 4096, 128 + (n / 64) % 64, 128 + n % 64]
  else [240 + n / 262144, 128 + (n / 4096) % 64, 128 + (n / 64) % 64, 128 + n % 64]

/-- Characters `encodeURIComponent` leaves unescaped:
`A-Z a-z 0-9 - _ . ! ~ * ' ( )`. -/
def uriUnreserved (c : Char) : Bool :=
  (65 ≤ c.toNat && c.toNat ≤ 90) || (97 ≤ c.toNat && c.toNat ≤ 122) ||
  (48 ≤ c.toNat && c.toNat ≤ 57) ||
  c.toNat == 45 || c.toNat == 95 || c.toNat == 46 || c.toNat == 33 ||
  c.toNat == 126 || c.toNat == 42 || c.toNat == 39 || c.toNat == 40 ||
  c.toNat == 41

/-- `encodeURIComponent` on one character: percent-encode the UTF-8 bytes
of every reserved character. -/
def encodeChar (c : Char) : List Char :=
  if uriUnreserved c then [c]
  else List.flatten
    ((utf8Bytes c.toNat).map (fun b => ['%', hexDigitUpper (b / 16), hexDigitUpper (b % 16)]))

/-- The platform's `encodeURIComponent`. -/
def encodeURIComponent (s : String) : String :=
  String.mk (List.flatten (s.data.map encodeChar))

/-- `p.split("/")`: path segments, preserving empty segments. -/
def splitSlashes : List Char → List (List Char)
  | [] => [[]]
  | c :: rest =>
    match splitSlashes rest with
    | [] => [[c]]
    | s :: ss => if c == '/' then [] :: s :: ss else (c :: s) :: ss

/-- `.join("/")`: reassemble path segments with slashes. -/
def joinSlashes : List (List Char) → List Char
  | [] => []
  | [s] => s
  | s :: ss => s ++ '/' :: joinSlashes ss

/-- `encodeURIComponentPath` from the unified `audio-paths.js` (lines 69-71):
`(p || "").split("/").map(encodeURIComponent).join("/")` — encode each path
segment, keeping slashes. -/
def encodeURIComponentPath (p : String) : String :=
  String.mk
    (joinSlashes ((splitSlashes p.data).map (fun seg => List.flatten (seg.map encodeChar))))

/-- A per-set manifest (`r2_manifest.json`): a file mapping plus the base
fields read by the resolver. Absent string fields are the empty string,
matching JavaScript falsiness of `undefined` and `""`. -/
structure Manifest where
  files : List (String × String) := []
  assetsBase : String := ""
  cdn : String := ""
  base : String := ""
deriving DecidableEq, Repr

/-- JavaScript property lookup `files[key]` on the manifest's file map. -/
def lookupFiles (files : List (String × String)) (key : String) : Option String :=
  (files.find? (fun e => e.1 == key)).map (fun e => e.2)

/-- `resolveSetAsset` from the unified `audio-paths.js` (src/unnamed/part_002,
lines 39-66). `appBase` is the ambient `APP.assetsBase` read from
`APP_CONFIG` (empty when no CDN base is configured). -/
def resolveSetAsset (appBase setName relOrFile folder : String)
    (manifest : Option Manifest) : String :=
  if isAbs relOrFile then relOrFile
  else
    let rel := stripLeadingSlashes relOrFile
    let file := canonFile relOrFile
    let key :=
      if folder ≠ "" ∧ file ≠ "" then folder ++ "/" ++ setName ++ "/" ++ file
      else if rel ≠ "" then setName ++ "/" ++ rel
      else ""
    let hit : Option String :=
      match manifest with
      | none => none
      | some m =>
        if key ≠ "" then
          match lookupFiles m.files key with
          | some u => if u ≠ "" then some u else none
          | none => none
        else none
    match hit with
    | some u => u
    | none =>
      let base :=
        jsOr (match manifest with
              | none => ""
              | some m => jsOr m.assetsBase (jsOr m.cdn m.base)) appBase
      if base ≠ "" ∧ key ≠ "" then stripTrailingSlash base ++ "/" ++ key
      else
        let relNorm :=
          if rel ≠ "" then rel
          else if folder ≠ "" ∧ file ≠ "" then folder ++ "/" ++ file else ""
        "../../static/" ++ encodeURIComponent setName ++ "/" ++
          encodeURIComponentPath relNorm

/-- A fetch `Response` as observed by the code under study: `ok` status
flag, the result of `.json()` (`Except` models a parse throw). -/
structure NetResp (α : Type) where
  ok : Bool
  json : Except String α

/-- The probe loop of `fetchManifest` (src/unnamed/part_002, lines 29-35):
`try { const r = await fetch(u); if (r.ok) return await r.json(); } catch {}`
for each probe URL in order, then `null`. `net u = .error e` models a
network throw. -/
def runProbes {α : Type} (net : String → Except String (NetResp α)) :
    List String → Option α
  | [] => none
  | u :: rest =>
    match net u with
    | Except.error _ => runProbes net rest
    | Except.ok r =>
      if r.ok then
        match r.json with
        | Except.ok v => some v
        | Except.error _ => runProbes net rest
      else runProbes net rest

/-- `fetchManifest` from the unified `audio-paths.js` (lines 23-36): probe
the per-set manifest path, then the legacy global path. -/
def fetchManifest {α : Type} (net : String → Except String (NetResp α))
    (setName : String) : Option α :=
  runProbes net
    ["../../static/" ++ encodeURIComponent setName ++ "/r2_manifest.json",
     "../../static/r2_manifest.json"]

/-- The outcome of one probe, stated declaratively for the probe-order
theorem: a parsed value exactly when the fetch did not throw, the response
was `ok`, and the JSON parse succeeded. -/
def probeOnce {α : Type} (net : String → Except String (NetResp α))
    (u : String) : Option α :=
  match net u with
  | Except.error _ => none
  | Except.ok r => if r.ok then r.json.toOption else none

/-- A flashcards/practice item as read by `buildAudioPath`: optional
explicit URLs, optional explicit filename, text fields for the filename
hint. Absent fields are the empty string. -/
structure Item where
  audio_url : String := ""
  audio : String := ""
  audio_file : String := ""
  phrase : String := ""
  polish : String := ""
deriving DecidableEq, Repr

/-- `(item && (item.audio_url || item.audio)) || ""` (line 77). -/
def itemExplicit (it : Item) : String := jsOr it.audio_url it.audio

/-- `buildAudioPath` from the unified `audio-paths.js` (src/unnamed/part_002,
lines 76-86): explicit absolute URL wins, otherwise resolve
`audio/<file>` with folder `audio`, the filename being the explicit
`audio_file` or `<index>_<sanitize(phrase || polish)>.mp3`. -/
def buildAudioPath (nfd : String → String) (appBase setName : String)
    (index : Nat) (it : Item) (manifest : Option Manifest) : String :=
  let explicit := itemExplicit it
  if isAbs explicit then explicit
  else
    let fn :=
      if it.audio_file ≠ "" then it.audio_file
      else toString index ++ "_" ++ sanitize nfd (jsOr it.phrase it.polish) ++ ".mp3"
    resolveSetAsset appBase setName ("audio/" ++ fn) "audio" manifest

/- ===== Section 3: the direct static resolver (audio-paths.js) ===== -/

/-- Whether `needle` occurs as a contiguous substring of the list. -/
def hasInfix (needle : List Char) : List Char → Bool
  | [] => needle.isPrefixOf []
  | c :: rest => needle.isPrefixOf (c :: rest) || hasInfix needle rest

/-- `getStaticBase` from `docs/static/js/audio-paths.js` (lines 43-47):
pages under `/flashcards/`, `/practice/`, `/reading/` or `/listening/`
live two levels below the static root. -/
def getStaticBase (pathname : String) : String :=
  if hasInfix "/flashcards/".data pathname.data ||
     hasInfix "/practice/".data pathname.data ||
     hasInfix "/reading/".data pathname.data ||
     hasInfix "/listening/".data pathname.data
  then "../../static" else "static"

/-- `buildAudioUrl` from `docs/static/js/audio-paths.js` (lines 58-71).
`index = none` models an argument whose `typeof` is not `"number"`;
`staticBase` is the module-level `STATIC_BASE` computed from the page
location. -/
def buildAudioUrl (staticBase : String) (nfd : String → String)
    (mode slug : String) (index : Option Int) (nativeText : String) : String :=
  match index with
  | none => ""
  | some i =>
    if mode = "" ∨ slug = "" then ""
    else if mode = "reading" then
      staticBase ++ "/" ++ slug ++ "/reading/" ++ toString i ++ ".mp3"
    else if mode = "listening" then
      staticBase ++ "/" ++ slug ++ "/listening/" ++ toString i ++ ".mp3"
    else
      let hint :=
        if nativeText = "" then "" else "_" ++ slugifyForFile nfd nativeText
      staticBase ++ "/" ++ slug ++ "/audio/" ++ toString i ++ hint ++ ".mp3"

/- ===== Section 4: the practice service worker (sw.js) ===== -/

/-- A stored or received response as the worker observes it: `ok`, whether
its type is `opaque`, its status, and its body. -/
structure JsResponse where
  ok : Bool
  isOpaque : Bool
  status : Nat
  body : String
deriving DecidableEq, Repr

/-- One named cache: request URL → stored response, in insertion order. -/
abbrev SwCache := List (String × JsResponse)

/-- The cache storage owned by the worker: named caches in creation order. -/
abbrev SwCaches := List (String × SwCache)

/-- A message received by the worker, duck-typed as in the source:
`data.type`, `data.cache`, `data.urls`, each possibly absent. -/
structure SwMsg where
  type : Option String := none
  cache : Option String := none
  urls : Option (List String) := none
deriving DecidableEq, Repr

/-- A message posted back to the requesting page. -/
inductive OutMsg
  | cacheProgress (done total : Nat)
  | cacheDone (cache : String)
  | cacheError (error : String)
  | uncacheDone (cache : String)
deriving DecidableEq, Repr

/-- `data.cache || 'practice-cache'` (sw.js lines 14 and 34). -/
def defaultCacheName (c : Option String) : String :=
  match c with
  | some s => if s = "" then "practice-cache" else s
  | none => "practice-cache"

/-- `cache.put(u, res)`: overwrite the entry for `u` or append it. -/
def cachePut (c : SwCache) (u : String) (r : JsResponse) : SwCache :=
  if c.any (fun e => e.1 == u) then
    c.map (fun e => if e.1 == u then (u, r) else e)
  else c ++ [(u, r)]

/-- `caches.open(name)`: the existing named cache or a fresh empty one. -/
def storageOpen (st : SwCaches) (name : String) : SwCache :=
  ((st.find? (fun e => e.1 == name)).map (fun e => e.2)).getD []

/-- Commit the updated named cache back into the storage. -/
def storageSet (st : SwCaches) (name : String) (c : SwCache) : SwCaches :=
  if st.any (fun e => e.1 == name) then
    st.map (fun e => if e.1 == name then (name, c) else e)
  else st ++ [(name, c)]

/-- `caches.delete(name)`: remove the whole named cache. -/
def storageDelete (st : SwCaches) (name : String) : SwCaches :=
  st.filter (fun e => !(e.1 == name))

/-- The sequential population loop of the `CACHE_SET` handler (sw.js lines
18-28): for each URL, try to fetch; on an `ok` or `opaque` response try to
store it (a throwing `put` is swallowed, modelled by `putErr`); always
increment `done` and post one progress message. `fetchO u = none` models a
fetch throw. -/
def cacheSetLoop (fetchO : String → Option JsResponse)
    (putErr : String → Bool) :
    List String → Nat → Nat → SwCache → List OutMsg × SwCache
  | [], _, _, c => ([], c)
  | u :: rest, done, total, c =>
    let c2 :=
      match fetchO u with
      | some r => if (r.ok || r.isOpaque) && !(putErr u) then cachePut c u r else c
      | none => c
    let p := cacheSetLoop fetchO putErr rest (done + 1) total c2
    (OutMsg.cacheProgress (done + 1) total :: p.1, p.2)

/-- The worker's `message` handler (sw.js lines 10-38). Oracles: `toAbs`
models `toAbs` (the `URL` constructor against the registration scope,
`none` on an invalid URL), `openErr` a throw from `caches.open`, `fetchO`
and `putErr` as in `cacheSetLoop`. Returns the messages posted to the
requesting client and the final cache storage. -/
def handleMessage (toAbs : String → Option String) (openErr : Option String)
    (fetchO : String → Option JsResponse) (putErr : String → Bool)
    (msg : SwMsg) (st : SwCaches) : List OutMsg × SwCaches :=
  if msg.type = some "CACHE_SET" then
    let cacheName := defaultCacheName msg.cache
    let urls := (match msg.urls with
      | some l => l.filterMap toAbs
      | none => [])
    match openErr with
    | some e => ([OutMsg.cacheError e], st)
    | none =>
      let p := cacheSetLoop fetchO putErr urls 0 urls.length (storageOpen st cacheName)
      (p.1 ++ [OutMsg.cacheDone cacheName], storageSet st cacheName p.2)
  else if msg.type = some "UNCACHE_SET" then
    let cacheName := defaultCacheName msg.cache
    ([OutMsg.uncacheDone cacheName], storageDelete st cacheName)
  else ([], st)

/-- The URL without its query string, as compared under
`{ ignoreSearch: true }`. -/
def stripQuery (u : String) : String :=
  String.mk (u.data.takeWhile (fun c => !(c == '?')))

/-- `cache.match(reqUrl, { ignoreSearch: true })`: first stored response
whose request URL matches the request ignoring both query strings. -/
def matchCache (c : SwCache) (reqUrl : String) : Option JsResponse :=
  (c.find? (fun e => stripQuery e.1 == stripQuery reqUrl)).map (fun e => e.2)

/-- The cache-search loop of the worker's `fetch` handler (sw.js lines
44-49): open each owned cache in order and return the first hit. -/
def searchLoop (st : SwCaches) (reqUrl : String) : Option JsResponse :=
  match st with
  | [] => none
  | nc :: rest =>
    match matchCache nc.2 reqUrl with
    | some hit => some hit
    | none => searchLoop rest reqUrl

/-- The worker's `fetch` handler (sw.js lines 41-52): cache-first over all
owned caches, then the network, then a synthetic empty 504 response.
`net u = none` models a network throw. -/
def handleFetch (net : String → Option JsResponse) (st : SwCaches)
    (reqUrl : String) : JsResponse :=
  match searchLoop st reqUrl with
  | some hit => hit
  | none =>
    match net reqUrl with
    | some r => r
    | none => { ok := false, isOpaque := false, status := 504, body := "" }

/-- The progress prefix claimed for a `CACHE_SET` job over `n` URLs:
`done` running 1..n with `total` fixed at `n`. -/
def progressTrace (n : Nat) : List OutMsg :=
  (List.range n).map (fun i => OutMsg.cacheProgress (i + 1) n)

/-- A terminal worker message in the sense of the cache protocol claim. -/
def isTerminal (m : OutMsg) : Prop :=
  (∃ c, m = OutMsg.cacheDone c) ∨ (∃ e, m = OutMsg.cacheError e)

/- ===== Section 5: generic helper lemmas ===== -/

/-- A concatenation whose right part is nonempty is nonempty. -/
theorem append_ne_empty_right (a b : String) (h : b ≠ "") : a ++ b ≠ "" := by
  intro hc
  apply h
  have hd := congrArg String.data hc
  rw [String.data_append] at hd
  have hb : b.data = [] := (List.append_eq_nil.1 hd).2
  exact String.ext hb

/- ===== Section 6: claim theorems for the resolvers ===== -/

/-- C1: for every asset whose computed canonical relative key
`<folder>/<setName>/<file>` has an exact (nonempty-URL) entry in the
manifest's `files` mapping, `resolveSetAsset` returns exactly that mapped
URL; the statement quantifies over the manifest's `assetsBase`/`cdn`/`base`
fields and the global `APP.assetsBase`, so neither a CDN base nor the local
fallback template influences the result. -/
theorem resolveSetAsset_manifest_hit
    (appBase setName rel folder url : String) (m : Manifest)
    (habs : isAbs rel = false) (hfolder : folder ≠ "")
    (hfile : canonFile rel ≠ "")
    (hlook : lookupFiles m.files (folder ++ "/" ++ setName ++ "/" ++ canonFile rel) = some url)
    (hurl : url ≠ "") :
    resolveSetAsset appBase setName rel folder (some m) = url := by
  have hkey : folder ++ "/" ++ setName ++ "/" ++ canonFile rel ≠ "" :=
    append_ne_empty_right _ _ hfile
  simp only [resolveSetAsset, habs, Bool.false_eq_true, if_false]
  rw [if_pos (show folder ≠ "" ∧ canonFile rel ≠ "" from ⟨hfolder, hfile⟩)]
  rw [hlook, if_pos hkey]
  simp [hurl]

/-- C1 witness: a concrete manifest hit, with a CDN base configured both on
the manifest and globally, resolves to the mapped URL. -/
theorem resolveSetAsset_manifest_hit_witness :
    resolveSetAsset "https://cdn.example" "greetings" "audio/3_czesc.mp3" "audio"
      (some { files := [("audio/greetings/3_czesc.mp3", "https://files.example/g/3.mp3")],
              assetsBase := "https://other.example", cdn := "", base := "" })
      = "https://files.example/g/3.mp3" :=
  resolveSetAsset_manifest_hit "https://cdn.example" "greetings" "audio/3_czesc.mp3"
    "audio" "https://files.example/g/3.mp3"
    { files := [("audio/greetings/3_czesc.mp3", "https://files.example/g/3.mp3")],
      assetsBase := "https://other.example", cdn := "", base := "" }
    (by decide) (by decide) (by decide) (by decide) (by decide)

/-- C4: resolving the asset key (set "greetings", mode flashcards, index 3,
hint "Cześć") with the direct static resolver on a mode-scoped page (two
levels below the static root) yields
`"../../static/greetings/audio/3_czesc.mp3"`. The direct resolver consults
no manifest and no CDN base. -/
theorem buildAudioUrl_flashcards_scenario :
    buildAudioUrl (getStaticBase "/flashcards/greetings/") nfdPL
      "flashcards" "greetings" (some 3) "Cześć"
      = "../../static/greetings/audio/3_czesc.mp3" := by decide

/-- C5 counterexample: an asset descriptor carrying the absolute URL
`ftp://files.example/a.mp3` (which matches `scheme://` but not the code's
`^(https?:)?//` test) is not returned unchanged — resolution falls through
to the local static template. -/
theorem buildAudioPath_scheme_counterexample :
    buildAudioPath nfdPL "" "greetings" 0
        { audio_url := "ftp://files.example/a.mp3" } none
      = "../../static/greetings/audio/0_.mp3" ∧
    buildAudioPath nfdPL "" "greetings" 0
        { audio_url := "ftp://files.example/a.mp3" } none
      ≠ "ftp://files.example/a.mp3" := by
  exact ⟨by decide, by decide⟩

/-- C5 (amended): for every asset descriptor whose explicit URL
(`audio_url` or `audio`) matches `^(https?:)?//` case-insensitively —
http, https, or protocol-relative — `buildAudioPath` returns it unchanged,
for every manifest (including none), every CDN base and every index. -/
theorem buildAudioPath_abs_unchanged (nfd : String → String)
    (appBase setName : String) (index : Nat) (it : Item)
    (manifest : Option Manifest) (h : isAbs (itemExplicit it) = true) :
    buildAudioPath nfd appBase setName index it manifest = itemExplicit it := by
  unfold buildAudioPath
  simp [h]

/-- C5 witness: a descriptor with an explicit https URL is returned
unchanged even though a manifest mapping and CDN base are present. -/
theorem buildAudioPath_abs_unchanged_witness :
    buildAudioPath nfdPL "https://cdn.example" "greetings" 3
      { audio_url := "https://media.example/x.mp3" }
      (some { files := [("audio/greetings/3_czesc.mp3", "https://files.example/g/3.mp3")],
              assetsBase := "https://other.example", cdn := "", base := "" })
      = "https://media.example/x.mp3" :=
  buildAudioPath_abs_unchanged nfdPL "https://cdn.example" "greetings" 3
    { audio_url := "https://media.example/x.mp3" }
    (some { files := [("audio/greetings/3_czesc.mp3", "https://files.example/g/3.mp3")],
            assetsBase := "https://other.example", cdn := "", base := "" })
    (by decide)

/-- C6: `loadManifest` is a total function of the network oracle (it never
raises), probes the per-set manifest URL first and the legacy global URL
second, returns the parsed JSON of the first probe that succeeds with a
well-formed response, performs no merging, and returns `none` when every
probe fails — whether by network throw, non-ok status, or JSON parse
throw (all three are `probeOnce … = none`). -/
theorem fetchManifest_probe_order {α : Type}
    (net : String → Except String (NetResp α)) (setName : String) :
    fetchManifest net setName =
      (match probeOnce net
          ("../../static/" ++ encodeURIComponent setName ++ "/r2_manifest.json") with
       | some v => some v
       | none => probeOnce net "../../static/r2_manifest.json") := by
  unfold fetchManifest
  cases h1 : net ("../../static/" ++ encodeURIComponent setName ++ "/r2_manifest.json") with
  | error e =>
    cases h2 : net "../../static/r2_manifest.json" with
    | error e2 => simp [runProbes, probeOnce, h1, h2]
    | ok r =>
      cases hok : r.ok with
      | false => simp [runProbes, probeOnce, h1, h2, hok]
      | true =>
        cases hj : r.json with
        | error pe => simp [runProbes, probeOnce, h1, h2, hok, hj, Except.toOption]
        | ok v => simp [runProbes, probeOnce, h1, h2, hok, hj, Except.toOption]
  | ok r =>
    cases hok : r.ok with
    | false =>
      cases h2 : net "../../static/r2_manifest.json" with
      | error e2 => simp [runProbes, probeOnce, h1, h2, hok]
      | ok r2 =>
        cases hok2 : r2.ok with
        | false => simp [runProbes, probeOnce, h1, h2, hok, hok2]
        | true =>
          cases hj2 : r2.json with
          | error pe => simp [runProbes, probeOnce, h1, h2, hok, hok2, hj2, Except.toOption]
          | ok v => simp [runProbes, probeOnce, h1, h2, hok, hok2, hj2, Except.toOption]
    | true =>
      cases hj : r.json with
      | error pe =>
        cases h2 : net "../../static/r2_manifest.json" with
        | error e2 => simp [runProbes, probeOnce, h1, h2, hok, hj, Except.toOption]
        | ok r2 =>
          cases hok2 : r2.ok with
          | false => simp [runProbes, probeOnce, h1, h2, hok, hj, hok2, Except.toOption]
          | true =>
            cases hj2 : r2.json with
            | error pe2 =>
              simp [runProbes, probeOnce, h1, h2, hok, hj, hok2, hj2, Except.toOption]
            | ok v =>
              simp [runProbes, probeOnce, h1, h2, hok, hj, hok2, hj2, Except.toOption]
      | ok v => simp [runProbes, probeOnce, h1, hok, hj, Except.toOption]

/-- C10: the direct static resolver returns the empty string exactly on the
invalid keys — falsy mode, falsy slug, or an index that is not a number
(`none`); on every valid key the result is a nonempty path, so the empty
string is an unambiguous no-URL sentinel. -/
theorem buildAudioUrl_empty_iff (staticBase : String) (nfd : String → String)
    (mode slug : String) (index : Option Int) (nativeText : String) :
    buildAudioUrl staticBase nfd mode slug index nativeText = "" ↔
      (mode = "" ∨ slug = "" ∨ index = none) := by
  cases index with
  | none => simp [buildAudioUrl]
  | some i =>
    simp only [buildAudioUrl, reduceCtorEq, or_false]
    by_cases hms : mode = "" ∨ slug = ""
    · rw [if_pos hms]
      exact iff_of_true rfl hms
    · rw [if_neg hms]
      refine iff_of_false ?_ hms
      intro h
      split_ifs at h <;> exact append_ne_empty_right _ ".mp3" (by decide) h

/- ===== Section 7: claim theorems for the service worker ===== -/

/-- The population loop posts one progress message per URL, with `done`
increasing by exactly one from `d + 1` and `total` fixed, independently of
the fetch and put outcomes and of the initial cache contents. -/
theorem cacheSetLoop_fst (fetchO : String → Option JsResponse)
    (putErr : String → Bool) :
    ∀ (urls : List String) (d t : Nat) (c : SwCache),
      (cacheSetLoop fetchO putErr urls d t c).1 =
        (List.range urls.length).map (fun i => OutMsg.cacheProgress (d + i + 1) t) := by
  intro urls
  induction urls with
  | nil => intro d t c; simp [cacheSetLoop]
  | cons u rest ih =>
    intro d t c
    simp only [cacheSetLoop, List.length_cons]
    rw [ih]
    rw [List.range_succ_eq_map]
    simp only [List.map_cons, List.map_map, Nat.add_zero]
    congr 1
    apply List.map_congr_left
    intro a _
    show OutMsg.cacheProgress (d + 1 + a + 1) t = OutMsg.cacheProgress (d + (a + 1) + 1) t
    congr 1
    omega

/-- C3 (amended): a `CACHE_SET` job over a url list either (cache storage
opens) emits exactly N `CACHE_PROGRESS` messages — `done` taking every
value 1..N in strictly increasing order with `total` fixed at N, where N
counts the URLs that survive absolutization — followed by exactly one
`CACHE_DONE`; or (cache storage fails to open) emits zero progress
messages followed by exactly one `CACHE_ERROR`. -/
theorem cacheSet_trace_spec (toAbs : String → Option String)
    (openErr : Option String) (fetchO : String → Option JsResponse)
    (putErr : String → Bool) (cacheOpt : Option String)
    (urlsIn : List String) (st : SwCaches) :
    (handleMessage toAbs openErr fetchO putErr
        { type := some "CACHE_SET", cache := cacheOpt, urls := some urlsIn } st).1 =
      match openErr with
      | none => progressTrace (urlsIn.filterMap toAbs).length ++
          [OutMsg.cacheDone (defaultCacheName cacheOpt)]
      | some e => [OutMsg.cacheError e] := by
  cases openErr with
  | some e => simp [handleMessage]
  | none =>
    simp only [handleMessage, if_pos rfl]
    rw [cacheSetLoop_fst]
    simp [progressTrace]

/-- C3 counterexample: when `caches.open` throws, the job over one
(successfully absolutized) URL posts no progress message at all — only a
`CACHE_ERROR` — so the claimed shape "N progress messages followed by a
terminal message" does not hold. -/
theorem cacheSet_trace_counterexample :
    ¬ ∃ t, isTerminal t ∧
      (handleMessage (fun u => some u) (some "QuotaExceededError")
          (fun _ => some { ok := true, isOpaque := false, status := 200, body := "x" })
          (fun _ => false)
          { type := some "CACHE_SET", cache := none, urls := some ["https://ex.app/a.mp3"] }
          []).1 = progressTrace 1 ++ [t] := by
  rintro ⟨t, _, h⟩
  rw [show (handleMessage (fun u => some u) (some "QuotaExceededError")
      (fun _ => some { ok := true, isOpaque := false, status := 200, body := "x" })
      (fun _ => false)
      { type := some "CACHE_SET", cache := none, urls := some ["https://ex.app/a.mp3"] }
      []).1 = [OutMsg.cacheError "QuotaExceededError"] from by decide] at h
  rw [show progressTrace 1 = [OutMsg.cacheProgress 1 1] from rfl] at h
  simp at h

/-- C7: the population job over `["/a.mp3", "/bad-url", "/b.mp3"]` where
the fetch of `/bad-url` returns a non-ok, non-opaque 404 response still
runs to completion — three progress messages with total 3, then
`CACHE_DONE` — and afterwards the named cache holds `/a.mp3` and `/b.mp3`
but not `/bad-url`. -/
theorem cacheSet_skip_failed_scenario :
    handleMessage (fun u => some ("https://ex.app" ++ u)) none
        (fun u => if u = "https://ex.app/bad-url"
          then some { ok := false, isOpaque := false, status := 404, body := "" }
          else some { ok := true, isOpaque := false, status := 200, body := "audio" })
        (fun _ => false)
        { type := some "CACHE_SET", cache := none, urls := some ["/a.mp3", "/bad-url", "/b.mp3"] }
        [] =
      ([OutMsg.cacheProgress 1 3, OutMsg.cacheProgress 2 3, OutMsg.cacheProgress 3 3,
        OutMsg.cacheDone "practice-cache"],
       [("practice-cache",
         [("https://ex.app/a.mp3", { ok := true, isOpaque := false, status := 200, body := "audio" }),
          ("https://ex.app/b.mp3", { ok := true, isOpaque := false, status := 200, body := "audio" })])]) := by
  decide

/-- C9: a worker message whose `type` is neither `"CACHE_SET"` nor
`"UNCACHE_SET"` — including a message with no `type` at all — is a silent
no-op: no response message is posted and the cache storage is unchanged. -/
theorem handleMessage_unknown_noop (toAbs : String → Option String)
    (openErr : Option String) (fetchO : String → Option JsResponse)
    (putErr : String → Bool) (msg : SwMsg) (st : SwCaches)
    (h1 : msg.type ≠ some "CACHE_SET") (h2 : msg.type ≠ some "UNCACHE_SET") :
    handleMessage toAbs openErr fetchO putErr msg st = ([], st) := by
  unfold handleMessage
  rw [if_neg h1, if_neg h2]

/-- C9 witness: a `PING` message to a worker with one populated cache
produces no response and no cache mutation. -/
theorem handleMessage_unknown_noop_witness :
    handleMessage (fun u => some u) none (fun _ => none) (fun _ => false)
      { type := some "PING" }
      [("practice-cache",
        [("https://ex.app/a.mp3", { ok := true, isOpaque := false, status := 200, body := "a" })])] =
      ([], [("practice-cache",
        [("https://ex.app/a.mp3", { ok := true, isOpaque := false, status := 200, body := "a" })])]) :=
  handleMessage_unknown_noop (fun u => some u) none (fun _ => none) (fun _ => false)
    { type := some "PING" }
    [("practice-cache",
      [("https://ex.app/a.mp3", { ok := true, isOpaque := false, status := 200, body := "a" })])]
    (by decide) (by decide)

/-- A cache hit returned by the search loop really is a stored entry whose
request URL matches the request with both query strings ignored. -/
theorem searchLoop_mem (st : SwCaches) (u : String) (r : JsResponse)
    (h : searchLoop st u = some r) :
    ∃ p, p ∈ st ∧ ∃ e, e ∈ p.2 ∧ stripQuery e.1 = stripQuery u ∧ e.2 = r := by
  induction st with
  | nil => simp [searchLoop] at h
  | cons nc rest ih =>
    rw [searchLoop] at h
    cases hm : matchCache nc.2 u with
    | some hit =>
      rw [hm] at h
      injection h with h
      subst h
      unfold matchCache at hm
      cases hf : nc.2.find? (fun e => stripQuery e.1 == stripQuery u) with
      | none => rw [hf] at hm; simp at hm
      | some e =>
        rw [hf] at hm
        simp only [Option.map_some', Option.some.injEq] at hm
        refine ⟨nc, List.mem_cons_self nc rest, e, List.mem_of_find?_eq_some hf, ?_, hm⟩
        have := List.find?_some hf
        exact eq_of_beq this
    | none =>
      rw [hm] at h
      obtain ⟨p, hp, rest'⟩ := ih h
      exact ⟨p, List.mem_cons_of_mem nc hp, rest'⟩

/-- When the search loop misses, no stored entry in any owned cache
matches the request modulo query strings. -/
theorem searchLoop_none (st : SwCaches) (u : String) (h : searchLoop st u = none) :
    ∀ p, p ∈ st → ∀ e, e ∈ p.2 → stripQuery e.1 ≠ stripQuery u := by
  induction st with
  | nil => intro p hp; simp at hp
  | cons nc rest ih =>
    rw [searchLoop] at h
    cases hm : matchCache nc.2 u with
    | some hit => rw [hm] at h; cases h
    | none =>
      rw [hm] at h
      intro p hp e he
      rcases List.mem_cons.1 hp with hp | hp
      · subst hp
        unfold matchCache at hm
        cases hf : p.2.find? (fun e => stripQuery e.1 == stripQuery u) with
        | some e2 => rw [hf] at hm; simp at hm
        | none =>
          have := List.find?_eq_none.1 hf e he
          simpa using this
      · exact ih h p hp e he

/-- C8: the fetch interceptor is cache-first across all owned caches with
query strings ignored — a search hit is returned as-is and comes from a
real stored entry matching the request modulo query — and on a full miss
the request goes to the network; a network throw yields the synthetic
empty 504 response. The handler is a total function, so the page always
receives a response. -/
theorem handleFetch_cache_first (net : String → Option JsResponse)
    (st : SwCaches) (u : String) :
    (∀ r, searchLoop st u = some r →
      handleFetch net st u = r ∧
        ∃ p, p ∈ st ∧ ∃ e, e ∈ p.2 ∧ stripQuery e.1 = stripQuery u ∧ e.2 = r) ∧
    (searchLoop st u = none →
      (∀ p, p ∈ st → ∀ e, e ∈ p.2 → stripQuery e.1 ≠ stripQuery u) ∧
      handleFetch net st u =
        (match net u with
         | some r => r
         | none => { ok := false, isOpaque := false, status := 504, body := "" })) := by
  constructor
  · intro r h
    refine ⟨?_, searchLoop_mem st u r h⟩
    unfold handleFetch
    rw [h]
  · intro h
    refine ⟨searchLoop_none st u h, ?_⟩
    unfold handleFetch
    rw [h]

/-- C8 witness: with the network down, a request whose URL differs from the
stored one only in the query string is served from the cache. -/
theorem handleFetch_cache_first_witness :
    handleFetch (fun _ => none)
      [("practice-cache",
        [("https://ex.app/a.mp3?v=1", { ok := true, isOpaque := false, status := 200, body := "b" })])]
      "https://ex.app/a.mp3?v=2" =
      { ok := true, isOpaque := false, status := 200, body := "b" } :=
  ((handleFetch_cache_first (fun _ => none)
      [("practice-cache",
        [("https://ex.app/a.mp3?v=1", { ok := true, isOpaque := false, status := 200, body := "b" })])]
      "https://ex.app/a.mp3?v=2").1
    { ok := true, isOpaque := false, status := 200, body := "b" } (by decide)).1

/- ===== Section 8: slugifier canonical form and idempotence (C2) ===== -/

/-- Unfolding equation for `noDouble` on a two-or-more element list. -/
theorem noDouble_cons_cons (a b : Char) (l : List Char) :
    noDouble (a :: b :: l) = (!(a == '_' && b == '_') && noDouble (b :: l)) := rfl

/-- Unfolding equation for `noTrail` on a two-or-more element list. -/
theorem noTrail_cons_cons (a b : Char) (l : List Char) :
    noTrail (a :: b :: l) = noTrail (b :: l) := rfl

/-- `noDouble` is inherited by the tail. -/
theorem noDouble_tail (a : Char) (l : List Char) (h : noDouble (a :: l) = true) :
    noDouble l = true := by
  cases l with
  | nil => rfl
  | cons b rest =>
    rw [noDouble_cons_cons, Bool.and_eq_true] at h
    exact h.2

/-- `List.all` survives `dropWhile`. -/
theorem all_dropWhile (q p : Char → Bool) (l : List Char) (h : l.all q = true) :
    (l.dropWhile p).all q = true := by
  induction l with
  | nil => exact h
  | cons c rest ih =>
    rw [List.all_cons, Bool.and_eq_true] at h
    rw [List.dropWhile_cons]
    split
    · exact ih h.2
    · rw [List.all_cons, Bool.and_eq_true]
      exact ⟨h.1, h.2⟩

/-- `List.all` survives `dropTrailingUnderscores`. -/
theorem all_dropTrailing (q : Char → Bool) (l : List Char) (h : l.all q = true) :
    (dropTrailingUnderscores l).all q = true := by
  induction l with
  | nil => exact h
  | cons c rest ih =>
    rw [List.all_cons, Bool.and_eq_true] at h
    have hr := ih h.2
    cases hd : dropTrailingUnderscores rest with
    | nil =>
      rw [dropTrailingUnderscores, hd]
      by_cases hc : (c == '_') = true
      · simp [hc]
      · simp [hc, h.1]
    | cons x xs =>
      rw [dropTrailingUnderscores, hd]
      rw [hd] at hr
      simp [h.1, hr]

/-- The output of `dropTrailingUnderscores` on a cons is empty or keeps the
same head. -/
theorem dropTrailing_shape (c : Char) (l : List Char) :
    dropTrailingUnderscores (c :: l) = [] ∨
      ∃ r, dropTrailingUnderscores (c :: l) = c :: r := by
  cases hd : dropTrailingUnderscores l with
  | nil =>
    rw [dropTrailingUnderscores, hd]
    by_cases hc : (c == '_') = true
    · left; simp [hc]
    · right; exact ⟨[], by simp [hc]⟩
  | cons x xs =>
    rw [dropTrailingUnderscores, hd]
    right; exact ⟨x :: xs, rfl⟩

/-- `noDouble` survives `dropWhile`. -/
theorem noDouble_dropWhile (p : Char → Bool) (l : List Char)
    (h : noDouble l = true) : noDouble (l.dropWhile p) = true := by
  induction l with
  | nil => exact h
  | cons c rest ih =>
    rw [List.dropWhile_cons]
    split
    · exact ih (noDouble_tail c rest h)
    · exact h

/-- `noDouble` survives `dropTrailingUnderscores`. -/
theorem noDouble_dropTrailing (l : List Char) (h : noDouble l = true) :
    noDouble (dropTrailingUnderscores l) = true := by
  induction l with
  | nil => exact h
  | cons c rest ih =>
    have hrest := ih (noDouble_tail c rest h)
    cases hd : dropTrailingUnderscores rest with
    | nil =>
      rw [dropTrailingUnderscores, hd]
      by_cases hc : (c == '_') = true
      · simp [hc, noDouble]
      · simp [hc, noDouble]
    | cons x xs =>
      rw [dropTrailingUnderscores, hd]
      rw [hd] at hrest
      rw [noDouble_cons_cons, Bool.and_eq_true]
      refine ⟨?_, hrest⟩
      cases rest with
      | nil => rw [dropTrailingUnderscores] at hd; cases hd
      | cons y ys =>
        rcases dropTrailing_shape y ys with h0 | ⟨r, hr⟩
        · rw [h0] at hd; cases hd
        · rw [hr] at hd
          injection hd with h1 _
          subst h1
          rw [noDouble_cons_cons, Bool.and_eq_true] at h
          exact h.1

/-- After dropping leading underscores the head is not an underscore. -/
theorem noLead_dropWhile (l : List Char) :
    noLead (l.dropWhile (fun c => c == '_')) = true := by
  induction l with
  | nil => rfl
  | cons c rest ih =>
    rw [List.dropWhile_cons]
    split
    · exact ih
    · next hc =>
      simp only [noLead]
      simpa using hc

/-- `noLead` survives `dropTrailingUnderscores`. -/
theorem noLead_dropTrailing (l : List Char) (h : noLead l = true) :
    noLead (dropTrailingUnderscores l) = true := by
  cases l with
  | nil => rfl
  | cons c rest =>
    rcases dropTrailing_shape c rest with h0 | ⟨r, hr⟩
    · rw [h0]; rfl
    · rw [hr]
      simpa [noLead] using h

/-- `dropTrailingUnderscores` leaves no trailing underscore. -/
theorem noTrail_dropTrailing (l : List Char) :
    noTrail (dropTrailingUnderscores l) = true := by
  induction l with
  | nil => rfl
  | cons c rest ih =>
    cases hd : dropTrailingUnderscores rest with
    | nil =>
      rw [dropTrailingUnderscores, hd]
      by_cases hc : (c == '_') = true
      · simp [hc, noTrail]
      · simp only [hc, if_false]
        simp only [noTrail]
        simpa using hc
    | cons x xs =>
      rw [dropTrailingUnderscores, hd]
      rw [hd] at ih
      rw [noTrail_cons_cons]
      exact ih

/-- Every character emitted by the run-collapser is either the underscore
replacement or a kept input character not matching the run class. -/
theorem collapseRunsAux_all (p P : Char → Bool) (hP : P '_' = true) :
    ∀ (b : Bool) (l : List Char), (∀ c ∈ l, p c = false → P c = true) →
      (collapseRunsAux p b l).all P = true := by
  intro b l
  induction l generalizing b with
  | nil => intro _; cases b <;> rfl
  | cons c rest ih =>
    intro h
    have hrest : ∀ x ∈ rest, p x = false → P x = true :=
      fun x hx => h x (List.mem_cons_of_mem c hx)
    simp only [collapseRunsAux]
    cases hpc : p c with
    | true =>
      cases b with
      | true => simpa [hpc] using ih true hrest
      | false => simp [hpc, hP, ih true hrest]
    | false => simp [hpc, h c (List.mem_cons_self c rest) hpc, ih false hrest]

/-- With `inRun = true` the underscore-collapser never emits a leading
underscore. -/
theorem collapseRunsAux_head_true (l : List Char) :
    noLead (collapseRunsAux (fun c => c == '_') true l) = true := by
  induction l with
  | nil => rfl
  | cons c rest ih =>
    simp only [collapseRunsAux]
    cases hpc : (c == '_') with
    | true => simpa [hpc] using ih
    | false => simp [hpc, noLead]

/-- The underscore-collapser yields no doubled underscore, from any start
state. -/
theorem collapseRunsAux_noDouble :
    ∀ (b : Bool) (l : List Char),
      noDouble (collapseRunsAux (fun c => c == '_') b l) = true := by
  intro b l
  induction l generalizing b with
  | nil => cases b <;> rfl
  | cons c rest ih =>
    simp only [collapseRunsAux]
    by_cases hpc : (c == '_') = true
    · rw [if_pos hpc]
      cases b with
      | true => simpa using ih true
      | false =>
        simp only [Bool.false_eq_true, if_false]
        have h1 := collapseRunsAux_head_true rest
        have h2 := ih true
        cases hxs : collapseRunsAux (fun c => c == '_') true rest with
        | nil => rfl
        | cons y ys =>
          rw [hxs] at h1 h2
          rw [noDouble_cons_cons, Bool.and_eq_true]
          simp only [noLead] at h1
          refine ⟨?_, h2⟩
          simp at h1 ⊢
          exact h1
    · rw [if_neg hpc]
      have hpf : (c == '_') = false := by simpa using hpc
      have h2 := ih false
      cases hxs : collapseRunsAux (fun c => c == '_') false rest with
      | nil => rfl
      | cons y ys =>
        rw [hxs] at h2
        rw [noDouble_cons_cons, Bool.and_eq_true]
        refine ⟨?_, h2⟩
        simp [hpf]

/-- On a canonical list — all characters in `[a-z0-9_]`, no doubled
underscore — a run-collapser whose class agrees with "is underscore" on
such characters is the identity; with `inRun = true` it is the identity
when additionally the head is not an underscore. -/
theorem collapseRunsAux_fixed (p : Char → Bool)
    (hp : ∀ c, okChar c = true → p c = (c == '_')) :
    ∀ l : List Char, l.all okChar = true → noDouble l = true →
      (collapseRunsAux p false l = l ∧
        (noLead l = true → collapseRunsAux p true l = l)) := by
  intro l
  induction l with
  | nil => intro _ _; exact ⟨rfl, fun _ => rfl⟩
  | cons c rest ih =>
    intro hall hnd
    rw [List.all_cons, Bool.and_eq_true] at hall
    have hrest := ih hall.2 (noDouble_tail c rest hnd)
    have hpc := hp c hall.1
    by_cases hc : (c == '_') = true
    · have hcu : c = '_' := eq_of_beq hc
      have hpu : p c = true := by rw [hpc, hc]
      have hlead : noLead rest = true := by
        cases rest with
        | nil => rfl
        | cons b rs =>
          rw [noDouble_cons_cons, Bool.and_eq_true] at hnd
          have h1 := hnd.1
          rw [hcu] at h1
          simp only [noLead]
          simpa using h1
      constructor
      · simp only [collapseRunsAux, hpu, if_true, Bool.false_eq_true, if_false]
        rw [hrest.2 hlead, hcu]
      · intro hl
        rw [hcu] at hl
        simp [noLead] at hl
    · have hpcf : p c = false := by
        rw [hpc]
        simpa using hc
      constructor
      · simp only [collapseRunsAux, hpcf, Bool.false_eq_true, if_false]
        rw [hrest.1]
      · intro _
        simp only [collapseRunsAux, hpcf, Bool.false_eq_true, if_false]
        rw [hrest.1]

/-- The three possible code-point ranges of a canonical slug character. -/
theorem okChar_ranges (c : Char) (h : okChar c = true) :
    (97 ≤ c.toNat ∧ c.toNat ≤ 122) ∨ (48 ≤ c.toNat ∧ c.toNat ≤ 57) ∨
      c.toNat = 95 := by
  rw [okChar, Bool.or_eq_true] at h
  rcases h with h | h
  · rw [isLowerAlnum, decide_eq_true_eq] at h
    rcases h with h | h
    · exact Or.inl h
    · exact Or.inr (Or.inl h)
  · have hc := eq_of_beq h
    subst hc
    exact Or.inr (Or.inr rfl)

/-- Canonical slug characters are not combining marks. -/
theorem stripMarks_fixed (l : List Char) (hall : l.all okChar = true) :
    stripMarks l = l := by
  apply List.filter_eq_self.2
  intro c hc
  have hr := okChar_ranges c (List.all_eq_true.1 hall c hc)
  rw [Bool.not_eq_true', isMark, decide_eq_false_iff_not]
  rcases hr with h | h | h <;> omega

/-- Lower-casing is the identity on canonical slug characters. -/
theorem jsToLower_fixed (c : Char) (h : okChar c = true) : jsToLower c = c := by
  have hr := okChar_ranges c h
  rw [jsToLower, if_neg]
  rcases hr with h1 | h1 | h1 <;> omega

/-- Mapping the lower-caser over a canonical slug is the identity. -/
theorem map_jsToLower_fixed (l : List Char) (hall : l.all okChar = true) :
    l.map jsToLower = l := by
  induction l with
  | nil => rfl
  | cons c rest ih =>
    rw [List.all_cons, Bool.and_eq_true] at hall
    rw [List.map_cons, jsToLower_fixed c hall.1, ih hall.2]

/-- On canonical slug characters, "not lower alphanumeric" is exactly
"is the underscore". -/
theorem bad_eq_underscore (c : Char) (h : okChar c = true) :
    (!(isLowerAlnum c)) = (c == '_') := by
  cases hl : isLowerAlnum c with
  | true =>
    simp only [Bool.not_true]
    cases he : (c == '_') with
    | false => rfl
    | true =>
      have hc := eq_of_beq he
      subst hc
      exact absurd hl (by decide)
  | false =>
    simp only [Bool.not_false]
    rw [okChar, Bool.or_eq_true] at h
    rcases h with h | h
    · rw [hl] at h
      exact absurd h (by decide)
    · exact h.symm

/-- Dropping leading underscores is the identity when there are none. -/
theorem dropWhile_fixed (l : List Char) (h : noLead l = true) :
    l.dropWhile (fun c => c == '_') = l := by
  cases l with
  | nil => rfl
  | cons c rest =>
    simp only [noLead, Bool.not_eq_true'] at h
    rw [List.dropWhile_cons, h]
    simp

/-- Dropping trailing underscores is the identity when there are none. -/
theorem dropTrailing_fixed (l : List Char) (h : noTrail l = true) :
    dropTrailingUnderscores l = l := by
  induction l with
  | nil => rfl
  | cons c rest ih =>
    cases rest with
    | nil =>
      simp only [noTrail, Bool.not_eq_true'] at h
      simp [dropTrailingUnderscores, h]
    | cons b rs =>
      rw [noTrail_cons_cons] at h
      rw [dropTrailingUnderscores, ih h]

/-- The slug pipeline emits only characters of `[a-z0-9_]`. -/
theorem slugChars_all (l : List Char) : (slugChars l).all okChar = true := by
  unfold slugChars trimUnderscores collapseRuns
  apply all_dropTrailing
  apply all_dropWhile
  have hstep2 : (collapseRunsAux (fun c => !(isLowerAlnum c)) false
      ((stripMarks l).map jsToLower)).all okChar = true := by
    apply collapseRunsAux_all _ _ (by decide)
    intro c _ hpc
    rw [Bool.not_eq_false'] at hpc
    rw [okChar, hpc, Bool.true_or]
  apply collapseRunsAux_all _ _ (by decide)
  intro c hc _
  exact List.all_eq_true.1 hstep2 c hc

/-- The slug pipeline's output is canonical: only `[a-z0-9_]`, no doubled,
leading, or trailing underscore. -/
theorem slugChars_canon (l : List Char) : isCanon (slugChars l) = true := by
  have h1 := slugChars_all l
  have h2 : noDouble (slugChars l) = true := by
    unfold slugChars trimUnderscores collapseRuns
    exact noDouble_dropTrailing _ (noDouble_dropWhile _ _ (collapseRunsAux_noDouble false _))
  have h3 : noLead (slugChars l) = true := by
    unfold slugChars trimUnderscores collapseRuns
    exact noLead_dropTrailing _ (noLead_dropWhile _)
  have h4 : noTrail (slugChars l) = true := by
    unfold slugChars trimUnderscores
    exact noTrail_dropTrailing _
  rw [isCanon, h1, h2, h3, h4]
  rfl

/-- The slug pipeline fixes every canonical list. -/
theorem slugChars_fixed (l : List Char) (h : isCanon l = true) :
    slugChars l = l := by
  rw [isCanon, Bool.and_eq_true, Bool.and_eq_true, Bool.and_eq_true] at h
  obtain ⟨⟨⟨h1, h2⟩, h3⟩, h4⟩ := h
  unfold slugChars collapseRuns trimUnderscores
  rw [stripMarks_fixed l h1, map_jsToLower_fixed l h1]
  rw [(collapseRunsAux_fixed _ (fun c hc => bad_eq_underscore c hc) l h1 h2).1]
  rw [(collapseRunsAux_fixed _ (fun c _ => rfl) l h1 h2).1]
  rw [dropWhile_fixed l h3, dropTrailing_fixed l h4]

/-- Unfolding equation of `slugifyForFile` off the empty-string guard. -/
theorem slugifyForFile_ne (nfd : String → String) (s : String) (h : s ≠ "") :
    slugifyForFile nfd s = String.mk (slugChars (nfd s).data) := by
  unfold slugifyForFile
  rw [if_neg h]

/-- C2: for every input string, the slugifier's output is canonical — it
matches `/^[a-z0-9_]*$/` and has no leading, trailing, or doubled
underscore (`isCanon`) — and the slugifier is idempotent. The platform's
NFD normalizer is quantified over; the only assumption is that it fixes
strings that are already canonical ASCII slugs, which holds of Unicode NFD
since such strings contain no decomposable character. -/
theorem slugifyForFile_canonical_idem (nfd : String → String)
    (hnfd : ∀ t : String, isCanon t.data = true → nfd t = t) (x : String) :
    isCanon (slugifyForFile nfd x).data = true ∧
      slugifyForFile nfd (slugifyForFile nfd x) = slugifyForFile nfd x := by
  by_cases hx : x = ""
  · subst hx
    exact ⟨rfl, rfl⟩
  · have hy := slugifyForFile_ne nfd x hx
    have hcanon : isCanon (slugifyForFile nfd x).data = true := by
      rw [hy]
      exact slugChars_canon _
    refine ⟨hcanon, ?_⟩
    by_cases hy0 : slugifyForFile nfd x = ""
    · rw [hy0]
      rfl
    · rw [slugifyForFile_ne nfd _ hy0, hnfd _ hcanon, hy]
      show String.mk (slugChars (slugChars (nfd x).data)) = String.mk (slugChars (nfd x).data)
      rw [slugChars_fixed _ (slugChars_canon _)]

/-- C2 witness: a concrete slug is canonical and idempotent; the identity
normalizer trivially satisfies the canonical-fixing assumption. -/
theorem slugifyForFile_canonical_idem_witness :
    isCanon (slugifyForFile id "Hello, World!").data = true ∧
      slugifyForFile id (slugifyForFile id "Hello, World!") =
        slugifyForFile id "Hello, World!" :=
  slugifyForFile_canonical_idem id (fun _ _ => rfl) "Hello, World!"
